import Mathlib

/-!
Verification of the HomeChef recipe-manager data layer and AI-response
normalization pipeline, shallowly embedded from the Python sources
(`app/db/dao.py`, `app/models/recipe.py`, `app/services/gemini_service.py`,
`app/ui/widgets/recipe_list.py`).

Modelling conventions:
* Python strings are Lean `String`s; all operations are implemented over
  `String.data` (lists of characters) so that every definition reduces in the
  kernel.  `str.strip()` is `pyStrip`, `str.lower()` is `pyLower`
  (ASCII letters, which covers the repository's data), `needle in hay` is
  `pyInStr`.
* SQLite tables are lists of rows in insertion order; `UNIQUE` keys and
  `ON CONFLICT ... DO UPDATE` upserts are modelled by in-place replacement.
* SQL `ORDER BY` is modelled with `List.mergeSort` under the corresponding
  comparator (SQLite BINARY collation on text = code-point order).
* Fallible Python code is modelled with `Except Unit`; a swallowed exception
  becomes a `match` on the `Except` value.
-/

/-! ## Python string primitives -/

/-- Whitespace as recognized by Python's `str.strip()` / regex `\s` (ASCII part). -/
def isPyWs (c : Char) : Bool :=
  c == ' ' || c == '\t' || c == '\n' || c == '\r' || c == '\x0b' || c == '\x0c'

/-- `str.strip()` on a character list: drop whitespace from both ends. -/
def pyStripL (l : List Char) : List Char :=
  ((l.dropWhile isPyWs).reverse.dropWhile isPyWs).reverse

/-- Python `s.strip()`. -/
def pyStrip (s : String) : String :=
  String.mk (pyStripL s.data)

/-- ASCII lower-casing of one character (Python `str.lower()` on the repository's data). -/
def pyLowerChar (c : Char) : Char :=
  if 'A' ≤ c ∧ c ≤ 'Z' then Char.ofNat (c.toNat + 32) else c

/-- Python `s.lower()`. -/
def pyLower (s : String) : String :=
  String.mk (s.data.map pyLowerChar)

/-- Is `needle` a prefix of `hay`? (helper for the substring test). -/
def listStartsWith : List Char → List Char → Bool
  | [], _ => true
  | _ :: _, [] => false
  | a :: as, b :: bs => a == b && listStartsWith as bs

/-- Does `hay` contain `needle` as a contiguous substring? -/
def listHasSub (needle : List Char) : List Char → Bool
  | [] => needle.isEmpty
  | b :: bs => listStartsWith needle (b :: bs) || listHasSub needle bs

/-- Python `needle in hay` for strings. -/
def pyInStr (needle hay : String) : Bool :=
  listHasSub needle.data hay.data

/-- Code-point lexicographic `≤` on character lists (Python string comparison and
SQLite BINARY collation agree with this on UTF-8 text). -/
def clLe : List Char → List Char → Bool
  | [], _ => true
  | _ :: _, [] => false
  | a :: as, b :: bs =>
    decide (a.toNat < b.toNat) || (decide (a.toNat = b.toNat) && clLe as bs)

/-- Boolean `≤` on `Int` (for `ORDER BY` on integer columns). -/
def intLe (a b : Int) : Bool := decide (a ≤ b)

/-! ## Pantry and grocery tables (`app/db/dao.py`)

A pantry row is `(item, quantity)`, a grocery row is `(item, quantity, checked)`;
`item` is the UNIQUE key.  Rows are kept in insertion order. -/

/-- `upsert_pantry_item(item, quantity)`:
`INSERT INTO pantry ... ON CONFLICT(item) DO UPDATE SET quantity=excluded.quantity`
with both arguments stripped. -/
def upsertPantryItem (item quantity : String) (s : List (String × String)) :
    List (String × String) :=
  let i := pyStrip item
  let q := pyStrip quantity
  if s.any (fun row => row.1 == i) then
    s.map (fun row => if row.1 == i then (i, q) else row)
  else
    s ++ [(i, q)]

/-- `upsert_grocery_item(item, quantity, checked)`:
`INSERT INTO grocery ... ON CONFLICT(item) DO UPDATE SET quantity=excluded.quantity,
checked=excluded.checked` with item and quantity stripped. -/
def upsertGroceryItem (item quantity : String) (checked : Bool)
    (s : List (String × String × Bool)) : List (String × String × Bool) :=
  let i := pyStrip item
  let q := pyStrip quantity
  if s.any (fun row => row.1 == i) then
    s.map (fun row => if row.1 == i then (i, q, checked) else row)
  else
    s ++ [(i, q, checked)]

/-- The stored (quantity, checked) pair for a grocery item name, if present. -/
def lookupGrocery (s : List (String × String × Bool)) (item : String) :
    Option (String × Bool) :=
  (s.find? (fun row => row.1 == item)).map (fun row => (row.2.1, row.2.2))

/-! ## Favorites (`app/db/dao.py`) -/

/-- Modelled from the spec: the `favorites(recipe_id)` table rejects duplicate
recipe ids (its schema file is not under `src/`; the spec describes the insert
as an idempotent insert whose duplicate-insert failures are swallowed). -/
def favInsert (recipeId : Int) (favs : List Int) : Except Unit (List Int) :=
  if favs.contains recipeId then Except.error () else Except.ok (favs ++ [recipeId])

/-- `set_favorite(recipe_id, favorite)`: on `favorite = true` an INSERT whose
failure is swallowed (`try ... except Exception: pass`); on `favorite = false`
a DELETE of the row. -/
def setFavorite (recipeId : Int) (favorite : Bool) (favs : List Int) : List Int :=
  if favorite then
    match favInsert recipeId favs with
    | Except.ok s => s
    | Except.error _ => favs
  else
    favs.filter (fun x => !(x == recipeId))

/-- `get_favorites()`: `SELECT recipe_id FROM favorites ORDER BY recipe_id`. -/
def getFavorites (favs : List Int) : List Int :=
  favs.mergeSort intLe

/-- Both ends of a character list hold no strippable whitespace. -/
def Trimmed (l : List Char) : Prop :=
  l.dropWhile isPyWs = l ∧ l.reverse.dropWhile isPyWs = l.reverse

/-! ## The `Recipe` record (`app/models/recipe.py`)

The pydantic model.  Ingredient entries are Python dicts `{name, quantity}`;
only string-valued fields are ever read from them, so an ingredient dict is
modelled as an association list of string key/value pairs. -/

structure Recipe where
  id : Option Int := none
  title : String
  description : String := ""
  ingredients : List (List (String × String)) := []
  steps : List String := []
  time_minutes : Int := 0
  difficulty : String := ""
  image_path : String := ""
  categories : List String := []

/-- Python `d.get(key, default)` for a string-valued dict. -/
def dGet (d : List (String × String)) (key dflt : String) : String :=
  match d.find? (fun kv => kv.1 == key) with
  | some kv => kv.2
  | none => dflt

/-- Python dict assignment `m[key] = v`: replace the binding if the key is
present (keys are unique by construction), otherwise append it. -/
def dictInsert {α : Type} : List (String × α) → String → α → List (String × α)
  | [], k, v => [(k, v)]
  | kv :: rest, k, v => if kv.1 == k then (k, v) :: rest else kv :: dictInsert rest k v

/-- Python `key in m` / `m.get(key)` for the dict model. -/
def dictGet? {α : Type} (m : List (String × α)) (key : String) : Option α :=
  (m.find? (fun kv => kv.1 == key)).map (fun kv => kv.2)

/-! ## Recipe data-access operations (`app/db/dao.py`) -/

/-- The dict comprehension `{name.lower(): qty for name, qty in list_pantry()}`. -/
def pantryDict (pantry : List (String × String)) : List (String × String) :=
  pantry.foldl (fun m row => dictInsert m (pyLower row.1) row.2) []

/-- `compute_missing_ingredients(recipe)`, with the pantry listing passed in:
for each recipe ingredient with a non-empty (lowercased) name, report it when
the lowercased name is absent from the pantry dict or mapped to `""`; collect
the original names in order. -/
def computeMissingIngredients (pantry : List (String × String)) (r : Recipe) :
    List String :=
  let pd := pantryDict pantry
  r.ingredients.foldl (fun missing ing =>
    if pyLower (dGet ing "name" "") == "" then missing
    else if (dictGet? pd (pyLower (dGet ing "name" ""))).isNone ||
        ((dictGet? pd (pyLower (dGet ing "name" ""))).getD "" == "") then
      missing ++ [dGet ing "name" ""]
    else missing) []

/-- The spec's description of `compute_missing_ingredients`: exactly the recipe
ingredients with a non-empty name whose lowercased name is absent from the
case-insensitive pantry mapping or mapped to an empty quantity, reported by
their original names, in recipe order, one entry per occurrence. -/
def missingSpec (pantry : List (String × String)) (r : Recipe) : List String :=
  r.ingredients.filterMap (fun ing =>
    if dGet ing "name" "" ≠ "" ∧
        (dictGet? (pantryDict pantry) (pyLower (dGet ing "name" "")) = none ∨
         dictGet? (pantryDict pantry) (pyLower (dGet ing "name" "")) = some "") then
      some (dGet ing "name" "")
    else none)

/-- `find_recipes_by_titles(titles)`: fetch the rows whose title is in
`titles` (in storage order), build the dict `{row title: row recipe}`, then
`[dict[t] for t in titles if t in dict]`. -/
def findRecipesByTitles (titles : List String) (db : List Recipe) : List Recipe :=
  if titles.isEmpty then []
  else
    let rows := db.filter (fun r => titles.contains r.title)
    let t2r := rows.foldl (fun m r => dictInsert m r.title r) []
    titles.filterMap (fun t => dictGet? t2r t)

/-- SQLite `LIKE '%pat%'` (default: ASCII case-insensitive substring match). -/
def likeContains (hay pat : String) : Bool :=
  listHasSub (pat.data.map pyLowerChar) (hay.data.map pyLowerChar)

/-- `ORDER BY title ASC` comparator. -/
def titleLe (a b : Recipe) : Bool :=
  clLe a.title.data b.title.data

/-- `ORDER BY time_minutes ASC, title ASC` comparator. -/
def timeTitleLe (a b : Recipe) : Bool :=
  decide (a.time_minutes < b.time_minutes) ||
    (decide (a.time_minutes = b.time_minutes) && clLe a.title.data b.title.data)

/-- `list_recipes()`: `SELECT * FROM recipes ORDER BY title ASC`. -/
def listRecipes (db : List Recipe) : List Recipe :=
  db.mergeSort titleLe

/-- `search_recipes(text, categories, max_time, difficulty)`: conjunctive
filter (each empty/None filter is a no-op), ordered by time then title. -/
def searchRecipes (text : String) (categories : List String) (maxTime : Option Int)
    (difficulty : String) (db : List Recipe) : List Recipe :=
  (db.filter (fun r =>
    (text == "" || (likeContains r.title text || likeContains r.description text))
    && categories.all (fun c => likeContains (String.intercalate "," r.categories) c)
    && (match maxTime with | none => true | some m => decide (r.time_minutes ≤ m))
    && (difficulty == "" || r.difficulty == difficulty))).mergeSort timeTitleLe

/-! ## Local fallback matching (`app/ui/widgets/recipe_list.py`) -/

/-- The score of one recipe: the number of user ingredient terms contained
(case-insensitively) in at least one of the recipe's ingredient names. -/
def scoreOf (terms : List String) (r : Recipe) : Nat :=
  let names := r.ingredients.map (fun ing => pyLower (dGet ing "name" ""))
  terms.foldl (fun s t =>
    if t == "" then s
    else if names.any (fun n => pyInStr t n) then s + 1 else s) 0

/-- Python's sort key `(-score, title.lower())` as a `≤` comparator. -/
def scoredLe (a b : Nat × Recipe) : Bool :=
  decide (b.1 < a.1) ||
    (decide (a.1 = b.1) && clLe (pyLower a.2.title).data (pyLower b.2.title).data)

/-- The local fallback of `_on_suggest.on_result`: score every known recipe,
keep those with positive score, sort by descending score breaking ties by
ascending lowercased title, return the first 12. -/
def localFallbackMatches (ings : List String) (recipes : List Recipe) : List Recipe :=
  let terms := ings.map pyLower
  let scored := recipes.foldl (fun acc r =>
    if 0 < scoreOf terms r then acc ++ [(scoreOf terms r, r)] else acc) []
  ((scored.mergeSort scoredLe).take 12).map (fun sr => sr.2)

/-! ## JSON values (`json.loads` results)

A mutual inductive is used (rather than nesting `List`) so that recursive
functions over values are structural and reduce in the kernel.  Numbers are
modelled as integers: the repository's JSON payloads (recipe rows, seed data,
AI responses) carry integer `time_minutes` values; fractional literals are
out of scope and the model parser rejects them. -/

mutual
inductive Json where
  | null
  | bool (b : Bool)
  | num (n : Int)
  | str (s : String)
  | arr (xs : JsonList)
  | obj (ms : JsonMems)
inductive JsonList where
  | nil
  | cons (hd : Json) (tl : JsonList)
inductive JsonMems where
  | nil
  | cons (key : String) (val : Json) (tl : JsonMems)
end

def jsonListToList : JsonList → List Json
  | JsonList.nil => []
  | JsonList.cons h t => h :: jsonListToList t

def jsonMemsKeys : JsonMems → List String
  | JsonMems.nil => []
  | JsonMems.cons k _ t => k :: jsonMemsKeys t

/-- Python dict lookup on parsed-JSON members: with duplicate keys the last
write wins, as in the dict built by `json.loads`. -/
def jsonMemsGetLast : JsonMems → String → Option Json
  | JsonMems.nil, _ => none
  | JsonMems.cons k v t, key =>
    match jsonMemsGetLast t key with
    | some r => some r
    | none => if k == key then some v else none

/-! ## A model of `json.loads` -/

/-- Whitespace skipped by the JSON lexer (`space`, `tab`, `newline`, `return`). -/
def isJsonWs (c : Char) : Bool :=
  c == ' ' || c == '\t' || c == '\n' || c == '\r'

/-- The value of a hexadecimal digit, if any. -/
def hexVal (c : Char) : Option Nat :=
  if '0' ≤ c ∧ c ≤ '9' then some (c.toNat - 48)
  else if 'a' ≤ c ∧ c ≤ 'f' then some (c.toNat - 87)
  else if 'A' ≤ c ∧ c ≤ 'F' then some (c.toNat - 55)
  else none

/-- Body of a JSON string after the opening quote: ordinary characters (raw
control characters are rejected, so a raw newline cannot occur inside a valid
JSON string) and the standard escapes. -/
def parseStrChars : List Char → Option (List Char × List Char)
  | [] => none
  | '"' :: rest => some ([], rest)
  | '\\' :: 'u' :: a :: b :: c :: d :: rest =>
    match hexVal a, hexVal b, hexVal c, hexVal d with
    | some va, some vb, some vc, some vd =>
      (parseStrChars rest).map (fun p =>
        (Char.ofNat (((va * 16 + vb) * 16 + vc) * 16 + vd) :: p.1, p.2))
    | _, _, _, _ => none
  | '\\' :: e :: rest =>
    match (if e == '"' then some '"'
      else if e == '\\' then some '\\'
      else if e == '/' then some '/'
      else if e == 'b' then some '\x08'
      else if e == 'f' then some '\x0c'
      else if e == 'n' then some '\n'
      else if e == 'r' then some '\r'
      else if e == 't' then some '\t'
      else none) with
    | some c => (parseStrChars rest).map (fun p => (c :: p.1, p.2))
    | none => none
  | c :: rest =>
    if c.toNat < 32 then none
    else (parseStrChars rest).map (fun p => (c :: p.1, p.2))

/-- An integer literal: digits without a superfluous leading zero, not followed
by a fraction or exponent (fractional numbers are outside this model). -/
def parseIntDigits (l : List Char) : Option (Nat × List Char) :=
  let digits := l.takeWhile Char.isDigit
  let rest := l.dropWhile Char.isDigit
  if digits.isEmpty then none
  else if 1 < digits.length ∧ digits.head? = some '0' then none
  else
    match rest.head? with
    | some '.' => none
    | some 'e' => none
    | some 'E' => none
    | _ => some (digits.foldl (fun n c => n * 10 + (c.toNat - 48)) 0, rest)

mutual
def parseVal : Nat → List Char → Option (Json × List Char)
  | 0, _ => none
  | Nat.succ fuel, l =>
    match l.dropWhile isJsonWs with
    | '\x7b' :: rest =>
      match rest.dropWhile isJsonWs with
      | '\x7d' :: rest2 => some (Json.obj JsonMems.nil, rest2)
      | rest2 => (parseMembers fuel rest2).map (fun p => (Json.obj p.1, p.2))
    | '[' :: rest =>
      match rest.dropWhile isJsonWs with
      | ']' :: rest2 => some (Json.arr JsonList.nil, rest2)
      | rest2 => (parseItems fuel rest2).map (fun p => (Json.arr p.1, p.2))
    | '"' :: rest => (parseStrChars rest).map (fun p => (Json.str (String.mk p.1), p.2))
    | 't' :: 'r' :: 'u' :: 'e' :: rest => some (Json.bool true, rest)
    | 'f' :: 'a' :: 'l' :: 's' :: 'e' :: rest => some (Json.bool false, rest)
    | 'n' :: 'u' :: 'l' :: 'l' :: rest => some (Json.null, rest)
    | '-' :: rest => (parseIntDigits rest).map (fun p => (Json.num (-(p.1 : Int)), p.2))
    | c :: rest =>
      if c.isDigit then
        (parseIntDigits (c :: rest)).map (fun p => (Json.num (p.1 : Int), p.2))
      else none
    | [] => none

def parseMembers : Nat → List Char → Option (JsonMems × List Char)
  | 0, _ => none
  | Nat.succ fuel, l =>
    match l.dropWhile isJsonWs with
    | '"' :: rest =>
      match parseStrChars rest with
      | none => none
      | some (k, r1) =>
        match r1.dropWhile isJsonWs with
        | ':' :: r2 =>
          match parseVal fuel r2 with
          | none => none
          | some (v, r3) =>
            match r3.dropWhile isJsonWs with
            | ',' :: r4 =>
              (parseMembers fuel r4).map
                (fun p => (JsonMems.cons (String.mk k) v p.1, p.2))
            | '\x7d' :: r4 => some (JsonMems.cons (String.mk k) v JsonMems.nil, r4)
            | _ => none
        | _ => none
    | _ => none

def parseItems : Nat → List Char → Option (JsonList × List Char)
  | 0, _ => none
  | Nat.succ fuel, l =>
    match parseVal fuel l with
    | none => none
    | some (v, r1) =>
      match r1.dropWhile isJsonWs with
      | ',' :: r2 => (parseItems fuel r2).map (fun p => (JsonList.cons v p.1, p.2))
      | ']' :: r2 => some (JsonList.cons v JsonList.nil, r2)
      | _ => none
end

/-- `json.loads(s)`: parse one value and require only whitespace after it. -/
def parseJson (s : String) : Option Json :=
  match parseVal (2 * s.data.length + 4) s.data with
  | some (v, rest) => if (rest.dropWhile isJsonWs).isEmpty then some v else none
  | none => none

/-! ## The fence-stripping regex and the parse ladder
(`GeminiService._generate_json`) -/

/-- The optional `(?:json)?` tag right after an opening fence, case-insensitive
(`re.IGNORECASE`). -/
def isJsonTag (l : List Char) : Bool :=
  (l.take 4).map pyLowerChar == ['j', 's', 'o', 'n']

def fenceAfterTag (l : List Char) : List Char :=
  if isJsonTag l then l.drop 4 else l

/-- Left-to-right scan of
`re.sub(r"^```(?:json)?\s*|```$", "", txt, flags=re.IGNORECASE | re.MULTILINE)`:
the first alternative applies at a line start (`atStart`), consuming the fence,
the optional tag and a maximal whitespace run (`\s*` may cross newlines); the
second applies before a newline or at the end of the text; other characters are
copied.  `atStart` tracks whether the previous character of the original text
was a newline.  The fuel exceeds the list length, and each step consumes at
least one character. -/
def fenceSub : Nat → Bool → List Char → List Char
  | 0, _, l => l
  | Nat.succ _, _, [] => []
  | Nat.succ fuel, atStart, c :: rest =>
    if c = '\x60' ∧ rest.take 2 = ['\x60', '\x60'] then
      if atStart then
        fenceSub fuel
          (((fenceAfterTag (rest.drop 2)).takeWhile isPyWs).getLast? == some '\n')
          ((fenceAfterTag (rest.drop 2)).dropWhile isPyWs)
      else if (rest.drop 2).head? == some '\n' || (rest.drop 2).isEmpty then
        fenceSub fuel false (rest.drop 2)
      else
        c :: fenceSub fuel false rest
    else
      c :: fenceSub fuel (c == '\n') rest

/-- `cleaned`: the response text after fence stripping and `.strip()`. -/
def fenceCleaned (txt : String) : String :=
  pyStrip (String.mk (fenceSub (txt.data.length + 1) true txt.data))

/-- Stage 3 of the ladder: `cleaned[start : end + 1]` for `start = find("\x7b")`
and `end = rfind("\x7d")`, provided both exist and `end > start`. -/
def braceSlice (cleaned : String) : Option String :=
  match cleaned.data.findIdx? (fun c => c == '\x7b'),
      cleaned.data.reverse.findIdx? (fun c => c == '\x7d') with
  | some s, some er =>
    if s < cleaned.data.length - 1 - er then
      some (String.mk ((cleaned.data.drop s).take (cleaned.data.length - er - s)))
    else none
  | _, _ => none

/-- The structured-parsing ladder of `_generate_json.request_json` applied to a
response text (already `(response.text or "\x7b\x7d")`): (1) strip and parse
directly; (2) strip the Markdown fences and retry; (3) extract the substring
from the first `\x7b` to the last `\x7d` and retry; otherwise the attempt
fails (and the service falls back to a plain-text request). -/
def parseLadder (txt0 : String) : Option Json :=
  match parseJson (pyStrip txt0) with
  | some v => some v
  | none =>
    match parseJson (fenceCleaned (pyStrip txt0)) with
    | some v => some v
    | none =>
      match braceSlice (fenceCleaned (pyStrip txt0)) with
      | some candidate => parseJson candidate
      | none => none

/-! ## Python views of parsed JSON values (`suggest_from_ingredients`
normalization, `GeminiService`) -/

/-- Decimal digits of a natural number, least significant first (fuel-based so
that it reduces in the kernel). -/
def natDigitsRev : Nat → Nat → List Char
  | 0, _ => []
  | Nat.succ fuel, n =>
    if n < 10 then [Char.ofNat (48 + n)]
    else Char.ofNat (48 + n % 10) :: natDigitsRev fuel (n / 10)

def natStr (n : Nat) : String :=
  String.mk (natDigitsRev (n + 1) n).reverse

/-- Python `str()` of an integer. -/
def intStr (n : Int) : String :=
  if n < 0 then "-" ++ natStr n.natAbs else natStr n.toNat

def joinComma : List String → String
  | [] => ""
  | [s] => s
  | s :: rest => s ++ ", " ++ joinComma rest

mutual
/-- Python `repr()` of a value parsed from JSON (string quoting is modelled
without escape processing; only lengths and shapes matter downstream). -/
def pyReprJ : Json → String
  | Json.null => "None"
  | Json.bool true => "True"
  | Json.bool false => "False"
  | Json.num n => intStr n
  | Json.str s => "'" ++ s ++ "'"
  | Json.arr xs => "[" ++ joinComma (pyReprList xs) ++ "]"
  | Json.obj ms => "\x7b" ++ joinComma (pyReprMems ms) ++ "\x7d"
def pyReprList : JsonList → List String
  | JsonList.nil => []
  | JsonList.cons h t => pyReprJ h :: pyReprList t
def pyReprMems : JsonMems → List String
  | JsonMems.nil => []
  | JsonMems.cons k v t => ("'" ++ k ++ "': " ++ pyReprJ v) :: pyReprMems t
end

/-- Python `str()` of a value parsed from JSON. -/
def pyStrJ : Json → String
  | Json.str s => s
  | v => pyReprJ v

/-- Python truthiness of a value parsed from JSON. -/
def pyTruthy : Json → Bool
  | Json.null => false
  | Json.bool b => b
  | Json.num n => !(decide (n = 0))
  | Json.str s => !s.data.isEmpty
  | Json.arr JsonList.nil => false
  | Json.arr _ => true
  | Json.obj JsonMems.nil => false
  | Json.obj _ => true

/-- Python `x.get(key, default)`: raises (`AttributeError`) unless `x` is a
dict. -/
def pyGetD (j : Json) (key : String) (dflt : Json) : Except Unit Json :=
  match j with
  | Json.obj ms => Except.ok ((jsonMemsGetLast ms key).getD dflt)
  | _ => Except.error ()

/-- Python iteration `for x in v`: the elements of a list, the one-character
strings of a string, the keys of a dict; anything else raises (`TypeError`). -/
def pyIterJ : Json → Except Unit (List Json)
  | Json.arr xs => Except.ok (jsonListToList xs)
  | Json.str s => Except.ok (s.data.map (fun c => Json.str (String.mk [c])))
  | Json.obj ms => Except.ok ((jsonMemsKeys ms).map Json.str)
  | _ => Except.error ()

/-- Python slicing `v[:n]` followed by iteration: lists and strings slice;
anything else raises (`TypeError`). -/
def pySliceJ (j : Json) (n : Nat) : Except Unit (List Json) :=
  match j with
  | Json.arr xs => Except.ok ((jsonListToList xs).take n)
  | Json.str s => Except.ok ((s.data.take n).map (fun c => Json.str (String.mk [c])))
  | _ => Except.error ()

/-- Python `int()` of a string: optional sign and decimal digits after
stripping whitespace; anything else raises (`ValueError`). -/
def pyStrToInt (s : String) : Except Unit Int :=
  match pyStripL s.data with
  | '-' :: ds =>
    if !ds.isEmpty && ds.all Char.isDigit then
      Except.ok (-(ds.foldl (fun n c => n * 10 + (c.toNat - 48)) 0 : Int))
    else Except.error ()
  | '+' :: ds =>
    if !ds.isEmpty && ds.all Char.isDigit then
      Except.ok ((ds.foldl (fun n c => n * 10 + (c.toNat - 48)) 0 : Int))
    else Except.error ()
  | ds =>
    if !ds.isEmpty && ds.all Char.isDigit then
      Except.ok ((ds.foldl (fun n c => n * 10 + (c.toNat - 48)) 0 : Int))
    else Except.error ()

/-- Python `int()` of a value parsed from JSON. -/
def pyToInt : Json → Except Unit Int
  | Json.num n => Except.ok n
  | Json.bool b => Except.ok (if b then 1 else 0)
  | Json.str s => pyStrToInt s
  | _ => Except.error ()

/-- Python slicing `s[:n]` for strings. -/
def pyTake (s : String) (n : Nat) : String :=
  String.mk (s.data.take n)

/-- A normalized ingredient entry of an AI idea. -/
structure NIng where
  name : String
  quantity : String

/-- A normalized AI idea, rebuilt field by field with length and count caps. -/
structure NIdea where
  title : String
  description : String
  ingredients : List NIng
  steps : List String
  time_minutes : Int
  difficulty : String
  categories : List String

/-- The normalized result of `suggest_from_ingredients`. -/
structure SuggestResult where
  match_titles : List String
  ideas : List NIdea
  substitutions : List String

/-- The ingredients comprehension of one idea: for each entry, evaluate the
blank-name filter (`str(i.get("name", "")).strip()`), then rebuild the kept
entries with both fields capped at 120 characters; any attribute error
propagates to the enclosing idea. -/
def normIngs : List Json → Except Unit (List NIng)
  | [] => Except.ok []
  | i :: rest => do
    let nameV ← pyGetD i "name" (Json.str "")
    if pyStrip (pyStrJ nameV) == "" then
      normIngs rest
    else do
      let qV ← pyGetD i "quantity" (Json.str "")
      let tail ← normIngs rest
      Except.ok (⟨pyTake (pyStrJ nameV) 120, pyTake (pyStrJ qV) 120⟩ :: tail)

/-- The per-idea reconstruction inside `suggest_from_ingredients`: every field
access or conversion may raise, in which case the idea is dropped by the
caller. -/
def normalizeIdea (idea : Json) : Except Unit NIdea := do
  let titleV ← pyGetD idea "title" (Json.str "AI Idea")
  let descV ← pyGetD idea "description" (Json.str "")
  let ingsL ← pyIterJ (← pyGetD idea "ingredients" (Json.arr JsonList.nil))
  let ings ← normIngs ingsL
  let stepsL ← pyIterJ (← pyGetD idea "steps" (Json.arr JsonList.nil))
  let tmV ← pyGetD idea "time_minutes" (Json.num 0)
  let tm ← pyToInt (if pyTruthy tmV then tmV else Json.num 0)
  let diffV ← pyGetD idea "difficulty" (Json.str "Easy")
  let catsL ← pyIterJ (← pyGetD idea "categories" (Json.arr JsonList.nil))
  Except.ok
    { title := pyTake (pyStrJ titleV) 120
      description := pyTake (pyStrJ descV) 2000
      ingredients := ings
      steps := (stepsL.map pyStrJ).take 30
      time_minutes := tm
      difficulty := pyTake (pyStrJ diffV) 20
      categories := (catsL.map pyStrJ).take 10 }

/-- The validation/normalization tail of `suggest_from_ingredients` on the
parsed response object: `match_titles` stringified and capped at 20, the first
10 entries of `ideas` rebuilt individually (a raising entry is dropped without
affecting its siblings), `substitutions` stringified and capped at 20.
A non-dict top-level response raises out of the method. -/
def suggestNormalize (data : Json) : Except Unit SuggestResult := do
  let mtL ← pyIterJ (← pyGetD data "match_titles" (Json.arr JsonList.nil))
  let ideasSliced ← pySliceJ (← pyGetD data "ideas" (Json.arr JsonList.nil)) 10
  let sbL ← pyIterJ (← pyGetD data "substitutions" (Json.arr JsonList.nil))
  Except.ok
    { match_titles := (mtL.map pyStrJ).take 20
      ideas := ideasSliced.filterMap (fun j => (normalizeIdea j).toOption)
      substitutions := (sbL.map pyStrJ).take 20 }

/-- A sample parsed AI response used by the C6 witness. -/
def suggestSampleData : Json :=
  Json.obj (JsonMems.cons "match_titles"
    (Json.arr (JsonList.cons (Json.str "A") (JsonList.cons (Json.num 7) JsonList.nil)))
    (JsonMems.cons "ideas"
      (Json.arr (JsonList.cons (Json.num 1) (JsonList.cons
        (Json.obj (JsonMems.cons "title" (Json.str "Soup")
          (JsonMems.cons "ingredients"
            (Json.arr (JsonList.cons
              (Json.obj (JsonMems.cons "name" (Json.str " ") JsonMems.nil))
              (JsonList.cons
                (Json.obj (JsonMems.cons "name" (Json.str "salt")
                  (JsonMems.cons "quantity" (Json.num 2) JsonMems.nil)))
                JsonList.nil)))
            JsonMems.nil)))
        (JsonList.cons (Json.num 2) (JsonList.cons (Json.num 3)
          (JsonList.cons (Json.num 4) (JsonList.cons (Json.num 5)
            (JsonList.cons (Json.num 6) (JsonList.cons (Json.num 7)
              (JsonList.cons (Json.num 8) (JsonList.cons (Json.num 9)
                (JsonList.cons
                  (Json.obj (JsonMems.cons "title" (Json.str "Stew") JsonMems.nil))
                  JsonList.nil))))))))))))
      (JsonMems.cons "substitutions" (Json.arr JsonList.nil) JsonMems.nil)))

/-- The normalized result of `suggestSampleData` (used by the C6 witness). -/
def suggestSampleOut : SuggestResult :=
  SuggestResult.mk ["A", "7"]
    [NIdea.mk "Soup" "" [NIng.mk "salt" "2"] [] 0 "Easy" []] []

/-! ## SQLite rows and `Recipe.from_row` (`app/models/recipe.py`)

A cell of a `recipes` row is NULL, an integer or text (the columns this
repository writes never hold REAL/BLOB values). -/

inductive SqlVal where
  | null
  | int (n : Int)
  | text (s : String)

structure RecipeRow where
  id : SqlVal
  title : SqlVal
  description : SqlVal
  ingredients_json : SqlVal
  steps_json : SqlVal
  time_minutes : SqlVal
  difficulty : SqlVal
  image_path : SqlVal
  categories : SqlVal

/-- Python truthiness of a row cell. -/
def sqlTruthy : SqlVal → Bool
  | SqlVal.null => false
  | SqlVal.int n => !(decide (n = 0))
  | SqlVal.text s => !s.data.isEmpty

/-- Python `str()` of a row cell (`str(None)` is `"None"`). -/
def sqlStr : SqlVal → String
  | SqlVal.null => "None"
  | SqlVal.int n => intStr n
  | SqlVal.text s => s

/-- Python `int()` of a row cell: `int(None)` raises. -/
def sqlToInt : SqlVal → Except Unit Int
  | SqlVal.null => Except.error ()
  | SqlVal.int n => Except.ok n
  | SqlVal.text s => pyStrToInt s

/-- `json.loads(row[col]) if row[col] else []`, wrapped in `try/except` with an
empty-list fallback: a falsy cell, a non-text cell (`TypeError` inside
`json.loads`) and unparsable text all degrade to `[]`. -/
def loadEmbedded (v : SqlVal) : Json :=
  if sqlTruthy v then
    match v with
    | SqlVal.text s => (parseJson s).getD (Json.arr JsonList.nil)
    | _ => Json.arr JsonList.nil
  else Json.arr JsonList.nil

def jsonMemsToAssoc : JsonMems → List (String × String)
  | JsonMems.nil => []
  | JsonMems.cons k v t => (k, pyStrJ v) :: jsonMemsToAssoc t

/-- Pydantic validation of `ingredients: List[dict]`: the parsed value must be
a list of objects, otherwise `Recipe(...)` raises a `ValidationError` that
`from_row` does not catch.  Dict values are kept in their Python string form
(only string fields are read downstream). -/
def jsonToDicts : Json → Except Unit (List (List (String × String)))
  | Json.arr xs => (jsonListToList xs).mapM (fun x =>
      match x with
      | Json.obj ms => Except.ok (jsonMemsToAssoc ms)
      | _ => Except.error ())
  | _ => Except.error ()

/-- Pydantic validation of `steps: List[str]`: the parsed value must be a list
of strings. -/
def jsonToSteps : Json → Except Unit (List String)
  | Json.arr xs => (jsonListToList xs).mapM (fun x =>
      match x with
      | Json.str s => Except.ok s
      | _ => Except.error ())
  | _ => Except.error ()

/-- Python `s.split(",")` (always at least one group). -/
def splitComma : List Char → List (List Char)
  | [] => [[]]
  | c :: rest =>
    if c = ',' then [] :: splitComma rest
    else
      match splitComma rest with
      | [] => [[c]]
      | g :: gs => (c :: g) :: gs

/-- `[c.strip() for c in (row["categories"] or "").split(",") if c.strip()]`,
guarded by `try/except` returning `[]` (an integer cell has no `.split`). -/
def rowCategories : SqlVal → List String
  | SqlVal.text s =>
    ((splitComma s.data).map (fun g => String.mk (pyStripL g))).filter
      (fun c => !(c == ""))
  | SqlVal.null => []
  | SqlVal.int _ => []

/-- `Recipe.from_row(row)` for a non-None row: the embedded JSON columns are
parsed under `try/except` (parse failures degrade to `[]`), the categories
string is split and stripped under `try/except`, and then the pydantic
constructor validates the field types — which can raise, since that call is
not guarded. -/
def fromRow (row : RecipeRow) : Except Unit Recipe := do
  let ings ← jsonToDicts (loadEmbedded row.ingredients_json)
  let steps ← jsonToSteps (loadEmbedded row.steps_json)
  let rid ← sqlToInt row.id
  let tm ← sqlToInt (if sqlTruthy row.time_minutes then row.time_minutes
    else SqlVal.int 0)
  Except.ok
    { id := some rid
      title := sqlStr row.title
      description := sqlStr (if sqlTruthy row.description then row.description
        else SqlVal.text "")
      ingredients := ings
      steps := steps
      time_minutes := tm
      difficulty := sqlStr (if sqlTruthy row.difficulty then row.difficulty
        else SqlVal.text "")
      image_path := sqlStr (if sqlTruthy row.image_path then row.image_path
        else SqlVal.text "")
      categories := rowCategories row.categories }

/-- A row whose `ingredients_json` is the valid JSON text `"5"`: the parse
succeeds, so the `try/except` does not fire, and pydantic rejects the integer
for `List[dict]` — `from_row` raises. -/
def badIngredientsRow : RecipeRow :=
  RecipeRow.mk (SqlVal.int 1) (SqlVal.text "Toast") (SqlVal.text "")
    (SqlVal.text "5") (SqlVal.text "[]") (SqlVal.int 0) (SqlVal.text "Easy")
    (SqlVal.text "") (SqlVal.text "Breakfast")

/-- A row whose embedded JSON columns fail to parse (used by the C10
witness). -/
def degradeRow : RecipeRow :=
  RecipeRow.mk (SqlVal.int 1) (SqlVal.text "Toast") SqlVal.null
    (SqlVal.text "oops") (SqlVal.text "x") (SqlVal.int 7) (SqlVal.text "Easy")
    SqlVal.null (SqlVal.text " a, ,b ")

/-! ## Helper lemmas on the string primitives -/

theorem dropWhile_length_le (p : Char → Bool) :
    ∀ l : List Char, (l.dropWhile p).length ≤ l.length := by
  intro l
  induction l with
  | nil => simp
  | cons a t ih =>
    by_cases h : p a
    · simp [List.dropWhile_cons, h]
      omega
    · simp [List.dropWhile_cons, h]

theorem dropWhile_eq_self_of_length (p : Char → Bool) :
    ∀ l : List Char, (l.dropWhile p).length = l.length → l.dropWhile p = l := by
  intro l h
  induction l with
  | nil => simp
  | cons a t ih =>
    by_cases hp : p a
    · exfalso
      have hle := dropWhile_length_le p t
      simp [List.dropWhile_cons, hp] at h
      omega
    · simp [List.dropWhile_cons, hp]

theorem dropWhile_head_false (p : Char → Bool) (l : List Char) (a : Char) (t : List Char)
    (h : l.dropWhile p = a :: t) : p a = false := by
  induction l with
  | nil => simp at h
  | cons c r ih =>
    by_cases hp : p c
    · exact ih (by simpa [List.dropWhile_cons, hp] using h)
    · simp [List.dropWhile_cons, hp] at h
      simpa [← h.1] using hp

theorem dropWhile_idem (p : Char → Bool) (l : List Char) :
    (l.dropWhile p).dropWhile p = l.dropWhile p := by
  cases hd : l.dropWhile p with
  | nil => simp
  | cons a t =>
    have ha := dropWhile_head_false p l a t hd
    simp [List.dropWhile_cons, ha]

theorem trimmed_pyStripL (l : List Char) : Trimmed (pyStripL l) := by
  constructor
  · cases hd : pyStripL l with
    | nil => simp
    | cons a t =>
      have : ((l.dropWhile isPyWs).reverse.dropWhile isPyWs).reverse = a :: t := hd
      have hrev : (l.dropWhile isPyWs).reverse.dropWhile isPyWs = (a :: t).reverse := by
        rw [← this, List.reverse_reverse]
      -- `a :: t` is the reverse of a suffix of `(l.dropWhile isPyWs).reverse`,
      -- hence a prefix of `l.dropWhile isPyWs`, whose head is not whitespace.
      have hsuf : (a :: t).reverse <:+ (l.dropWhile isPyWs).reverse := by
        rw [← hrev]
        exact List.dropWhile_suffix _
      have hpre : a :: t <+: l.dropWhile isPyWs := List.reverse_suffix.mp hsuf
      obtain ⟨rest, hrest⟩ := hpre
      have ha : isPyWs a = false := by
        have : l.dropWhile isPyWs = a :: (t ++ rest) := by
          rw [← hrest]; simp
        exact dropWhile_head_false isPyWs l a (t ++ rest) this
      simp [List.dropWhile_cons, ha]
  · show (pyStripL l).reverse.dropWhile isPyWs = (pyStripL l).reverse
    unfold pyStripL
    rw [List.reverse_reverse]
    exact dropWhile_idem _ _

theorem pyStripL_of_trimmed {l : List Char} (h : Trimmed l) : pyStripL l = l := by
  unfold pyStripL
  rw [h.1, h.2, List.reverse_reverse]

theorem trimmed_of_pyStripL_eq {l : List Char} (h : pyStripL l = l) : Trimmed l := by
  have hlen1 : ((l.dropWhile isPyWs).reverse.dropWhile isPyWs).length = l.length := by
    have := congrArg List.length h
    simpa [pyStripL] using this
  have hA : (l.dropWhile isPyWs).length = l.length := by
    have h1 := dropWhile_length_le isPyWs (l.dropWhile isPyWs).reverse
    have h2 := dropWhile_length_le isPyWs l
    simp at h1
    omega
  have hAeq : l.dropWhile isPyWs = l := dropWhile_eq_self_of_length isPyWs l hA
  constructor
  · exact hAeq
  · have : (l.reverse.dropWhile isPyWs).reverse = l := by
      have := h
      unfold pyStripL at this
      rwa [hAeq] at this
    have := congrArg List.reverse this
    simpa using this

theorem pyStrip_idem (s : String) : pyStrip (pyStrip s) = pyStrip s := by
  unfold pyStrip
  simp [pyStripL_of_trimmed (trimmed_pyStripL s.data)]

/-! ## Claim C2 -/

theorem upsert_row_map_keeps_any (i : String) (q : String) (c : Bool)
    (s : List (String × String × Bool)) (h : s.any (fun row => row.1 == i) = true) :
    (s.map (fun row => if row.1 == i then (i, q, c) else row)).any
      (fun row => row.1 == i) = true := by
  rcases List.any_eq_true.mp h with ⟨row, hmem, hrow⟩
  refine List.any_eq_true.mpr ⟨(i, q, c), ?_, by simp⟩
  refine List.mem_map.mpr ⟨row, hmem, ?_⟩
  simp [hrow]

theorem upsert_row_map_untouched (i : String) (q : String) (c : Bool)
    (s : List (String × String × Bool)) (h : s.any (fun row => row.1 == i) = false) :
    s.map (fun row => if row.1 == i then (i, q, c) else row) = s := by
  induction s with
  | nil => simp
  | cons row t ih =>
    simp only [List.any_cons, Bool.or_eq_false_iff] at h
    simp only [List.map_cons, ih h.2]
    congr 1
    exact if_neg (by simp [h.1])

theorem find_map_upsert (i : String) (q : String) (c : Bool)
    (s : List (String × String × Bool)) (h : s.any (fun row => row.1 == i) = true) :
    (s.map (fun row => if row.1 == i then (i, q, c) else row)).find?
      (fun row => row.1 == i) = some (i, q, c) := by
  induction s with
  | nil => simp at h
  | cons row t ih =>
    simp only [List.any_cons, Bool.or_eq_true] at h
    by_cases hrow : (row.1 == i) = true
    · simp only [List.map_cons, if_pos hrow]
      exact List.find?_cons_of_pos _ (by simp)
    · have ht : t.any (fun row => row.1 == i) = true := by
        rcases h with h | h
        · exact absurd h hrow
        · exact h
      simp only [List.map_cons, if_neg hrow]
      exact (List.find?_cons_of_neg (p := fun (r : String × String × Bool) => r.1 == i) _
        hrow).trans (ih ht)

/-- C2: `upsert_grocery_item` is idempotent for an identical
`(item, quantity, checked)` triple, and re-upserting an existing item name
overwrites both its quantity and its checked flag (in particular a checked flag
of `true` is reset by an upsert with `checked = false`, since `checked` below is
arbitrary). -/
theorem upsert_grocery_idempotent_overwrites (item quantity : String) (checked : Bool)
    (s : List (String × String × Bool)) :
    upsertGroceryItem item quantity checked (upsertGroceryItem item quantity checked s) =
        upsertGroceryItem item quantity checked s ∧
      lookupGrocery (upsertGroceryItem item quantity checked s) (pyStrip item) =
        some (pyStrip quantity, checked) := by
  constructor
  · unfold upsertGroceryItem
    by_cases h : s.any (fun row => row.1 == pyStrip item) = true
    · simp only [h, if_true]
      have h2 := upsert_row_map_keeps_any (pyStrip item) (pyStrip quantity) checked s h
      simp only [h2, if_true]
      rw [List.map_map]
      apply List.map_congr_left
      intro row _
      by_cases hrow : (row.1 == pyStrip item) = true
      · rw [Function.comp_apply, if_pos hrow, if_pos (by simp)]
      · rw [Function.comp_apply, if_neg hrow, if_neg hrow]
    · simp only [Bool.not_eq_true] at h
      simp only [h, Bool.false_eq_true, if_false]
      have h2 : (s ++ [(pyStrip item, pyStrip quantity, checked)]).any
          (fun row => row.1 == pyStrip item) = true := by
        simp
      simp only [h2, if_true, List.map_append]
      rw [upsert_row_map_untouched _ _ _ _ h]
      simp
  · unfold upsertGroceryItem lookupGrocery
    by_cases h : s.any (fun row => row.1 == pyStrip item) = true
    · simp only [h, if_true]
      rw [find_map_upsert _ _ _ _ h]
      simp
    · simp only [Bool.not_eq_true] at h
      simp only [h, Bool.false_eq_true, if_false]
      have hnone : s.find? (fun row => row.1 == pyStrip item) = none := by
        rw [List.find?_eq_none]
        intro row hmem hrow
        have hany : s.any (fun row => row.1 == pyStrip item) = true :=
          List.any_eq_true.mpr ⟨row, hmem, hrow⟩
        rw [h] at hany
        exact Bool.false_ne_true hany
      rw [List.find?_append, hnone]
      simp

/-! ## Claim C9 -/

theorem upsertPantry_stripped (item quantity : String) (p : List (String × String))
    (hp : ∀ row ∈ p, pyStrip row.1 = row.1 ∧ pyStrip row.2 = row.2) :
    ∀ row ∈ upsertPantryItem item quantity p,
      pyStrip row.1 = row.1 ∧ pyStrip row.2 = row.2 := by
  intro row hrow
  simp only [upsertPantryItem] at hrow
  by_cases h : p.any (fun r => r.1 == pyStrip item) = true
  · rw [if_pos h] at hrow
    obtain ⟨row0, hmem, heq⟩ := List.mem_map.mp hrow
    by_cases h0 : (row0.1 == pyStrip item) = true
    · rw [if_pos h0] at heq
      rw [← heq]
      exact ⟨pyStrip_idem item, pyStrip_idem quantity⟩
    · rw [if_neg h0] at heq
      rw [← heq]
      exact hp row0 hmem
  · rw [if_neg h] at hrow
    rcases List.mem_append.mp hrow with hmem | hmem
    · exact hp row hmem
    · simp only [List.mem_singleton] at hmem
      rw [hmem]
      exact ⟨pyStrip_idem item, pyStrip_idem quantity⟩

theorem upsertGrocery_stripped (item quantity : String) (checked : Bool)
    (g : List (String × String × Bool))
    (hg : ∀ row ∈ g, pyStrip row.1 = row.1 ∧ pyStrip row.2.1 = row.2.1) :
    ∀ row ∈ upsertGroceryItem item quantity checked g,
      pyStrip row.1 = row.1 ∧ pyStrip row.2.1 = row.2.1 := by
  intro row hrow
  simp only [upsertGroceryItem] at hrow
  by_cases h : g.any (fun r => r.1 == pyStrip item) = true
  · rw [if_pos h] at hrow
    obtain ⟨row0, hmem, heq⟩ := List.mem_map.mp hrow
    by_cases h0 : (row0.1 == pyStrip item) = true
    · rw [if_pos h0] at heq
      rw [← heq]
      exact ⟨pyStrip_idem item, pyStrip_idem quantity⟩
    · rw [if_neg h0] at heq
      rw [← heq]
      exact hg row0 hmem
  · rw [if_neg h] at hrow
    rcases List.mem_append.mp hrow with hmem | hmem
    · exact hg row hmem
    · simp only [List.mem_singleton] at hmem
      rw [hmem]
      exact ⟨pyStrip_idem item, pyStrip_idem quantity⟩

/-- C9: `upsert_pantry_item` and `upsert_grocery_item` strip surrounding
whitespace from item and quantity before storing: two upserts whose item names
agree after stripping rewrite the state identically (they target the same
stored entry), and every row of a state reachable through these operations has
a whitespace-stripped item and quantity. -/
theorem upsert_strips_whitespace (item item2 quantity : String) (checked : Bool)
    (p : List (String × String)) (g : List (String × String × Bool))
    (h : pyStrip item = pyStrip item2)
    (hp : ∀ row ∈ p, pyStrip row.1 = row.1 ∧ pyStrip row.2 = row.2)
    (hg : ∀ row ∈ g, pyStrip row.1 = row.1 ∧ pyStrip row.2.1 = row.2.1) :
    upsertPantryItem item quantity p = upsertPantryItem item2 quantity p ∧
    upsertGroceryItem item quantity checked g =
      upsertGroceryItem item2 quantity checked g ∧
    (∀ row ∈ upsertPantryItem item quantity p,
      pyStrip row.1 = row.1 ∧ pyStrip row.2 = row.2) ∧
    (∀ row ∈ upsertGroceryItem item quantity checked g,
      pyStrip row.1 = row.1 ∧ pyStrip row.2.1 = row.2.1) := by
  refine ⟨?_, ?_, upsertPantry_stripped item quantity p hp,
    upsertGrocery_stripped item quantity checked g hg⟩
  · simp only [upsertPantryItem, h]
  · simp only [upsertGroceryItem, h]

/-- Witness for C9 at concrete inputs. -/
theorem upsert_strips_whitespace_witness :
    pyStrip " salt " = pyStrip "salt" ∧
    upsertPantryItem " salt " " 2 kg " [] = upsertPantryItem "salt" " 2 kg " [] := by
  have h : pyStrip " salt " = pyStrip "salt" := rfl
  refine ⟨h, ?_⟩
  exact (upsert_strips_whitespace " salt " "salt" " 2 kg " false [] [] h
    (by intro row hrow; simp at hrow) (by intro row hrow; simp at hrow)).1

/-! ## Claim C8 -/

theorem intLe_trans : ∀ a b c : Int, intLe a b = true → intLe b c = true →
    intLe a c = true := by
  intro a b c hab hbc
  simp only [intLe, decide_eq_true_eq] at *
  omega

theorem intLe_total : ∀ a b : Int, (intLe a b || intLe b a) = true := by
  intro a b
  simp only [intLe, Bool.or_eq_true, decide_eq_true_eq]
  omega

/-- C8: `set_favorite(id, true)` on an already-favorited id does not raise (the
duplicate-insert failure of `favInsert` is swallowed by the `match` in
`setFavorite`, which is a total function) and leaves the state unchanged;
`setFavorite` is idempotent in both directions and preserves uniqueness of the
stored ids; `getFavorites` returns the favorited ids in ascending order with no
duplicates. -/
theorem set_favorite_idempotent_sorted (recipeId : Int) (favs : List Int)
    (hnd : favs.Nodup) :
    (recipeId ∈ favs → setFavorite recipeId true favs = favs) ∧
    (∀ b, setFavorite recipeId b (setFavorite recipeId b favs) =
      setFavorite recipeId b favs) ∧
    (∀ b, (setFavorite recipeId b favs).Nodup) ∧
    (getFavorites favs).Pairwise (· ≤ ·) ∧ (getFavorites favs).Nodup := by
  have hmem_insert : recipeId ∈ favs → setFavorite recipeId true favs = favs := by
    intro hmem
    simp [setFavorite, favInsert, hmem]
  have hnotmem_insert : recipeId ∉ favs →
      setFavorite recipeId true favs = favs ++ [recipeId] := by
    intro hmem
    simp [setFavorite, favInsert, hmem]
  refine ⟨hmem_insert, ?_, ?_, ?_, ?_⟩
  · intro b
    cases b with
    | true =>
      by_cases hmem : recipeId ∈ favs
      · rw [hmem_insert hmem, hmem_insert hmem]
      · rw [hnotmem_insert hmem]
        have hc2 : (favs ++ [recipeId]).contains recipeId = true := by simp
        simp [setFavorite, favInsert, hc2]
    | false =>
      simp [setFavorite, List.filter_filter, Bool.and_self]
  · intro b
    cases b with
    | true =>
      by_cases hmem : recipeId ∈ favs
      · rw [hmem_insert hmem]
        exact hnd
      · rw [hnotmem_insert hmem]
        exact List.Nodup.append hnd (List.nodup_singleton recipeId)
          (by simpa using hmem)
    | false =>
      exact hnd.filter _
  · have hs := List.sorted_mergeSort intLe_trans intLe_total favs
    exact hs.imp (fun h => by simpa [intLe] using h)
  · exact ((List.mergeSort_perm favs intLe).nodup_iff).mpr hnd

/-- Witness for C8 at `recipeId = 1`, `favs = [2, 1]`. -/
theorem set_favorite_witness :
    ([2, 1] : List Int).Nodup ∧
    ((1 ∈ ([2, 1] : List Int) → setFavorite 1 true [2, 1] = [2, 1]) ∧
    (∀ b, setFavorite 1 b (setFavorite 1 b [2, 1]) = setFavorite 1 b [2, 1]) ∧
    (∀ b, (setFavorite 1 b ([2, 1] : List Int)).Nodup) ∧
    (getFavorites [2, 1]).Pairwise (· ≤ ·) ∧ (getFavorites [2, 1]).Nodup) :=
  ⟨by decide, set_favorite_idempotent_sorted 1 [2, 1] (by decide)⟩

/-! ## Claim C1 -/

theorem pyLower_empty_iff (s : String) : (pyLower s == "") = true ↔ s = "" := by
  rw [beq_iff_eq]
  constructor
  · intro h
    have hdata : (s.data.map pyLowerChar) = [] := by
      have := congrArg String.data h
      simpa [pyLower] using this
    have h2 : s.data = [] := List.map_eq_nil_iff.mp hdata
    cases s with
    | mk d =>
      have h3 : d = [] := h2
      rw [h3]
  · intro h
    rw [h]
    rfl

theorem missing_cond_iff (o : Option String) :
    (o.isNone || (o.getD "" == "")) = true ↔ (o = none ∨ o = some "") := by
  cases o with
  | none => simp
  | some q => simp [beq_iff_eq]

theorem computeMissing_go (pd : List (String × String))
    (ings : List (List (String × String))) :
    ∀ acc, ings.foldl (fun missing ing =>
      if pyLower (dGet ing "name" "") == "" then missing
      else if (dictGet? pd (pyLower (dGet ing "name" ""))).isNone ||
          ((dictGet? pd (pyLower (dGet ing "name" ""))).getD "" == "") then
        missing ++ [dGet ing "name" ""]
      else missing) acc
    = acc ++ ings.filterMap (fun ing =>
      if dGet ing "name" "" ≠ "" ∧ (dictGet? pd (pyLower (dGet ing "name" "")) = none ∨
          dictGet? pd (pyLower (dGet ing "name" "")) = some "") then
        some (dGet ing "name" "")
      else none) := by
  induction ings with
  | nil => intro acc; simp
  | cons ing rest ih =>
    intro acc
    simp only [List.foldl_cons, List.filterMap_cons]
    by_cases hname : dGet ing "name" "" = ""
    · have h1 : (pyLower (dGet ing "name" "") == "") = true := by
        rw [hname]; rfl
      have h2 : ¬(dGet ing "name" "" ≠ "" ∧ (dictGet? pd (pyLower (dGet ing "name" "")) = none ∨
          dictGet? pd (pyLower (dGet ing "name" "")) = some "")) :=
        fun h => h.1 hname
      rw [if_pos h1, if_neg h2]
      exact ih acc
    · have h1 : ¬((pyLower (dGet ing "name" "") == "") = true) := by
        rw [pyLower_empty_iff]
        exact hname
      rw [if_neg h1]
      by_cases h2 : ((dictGet? pd (pyLower (dGet ing "name" ""))).isNone ||
          ((dictGet? pd (pyLower (dGet ing "name" ""))).getD "" == "")) = true
      · rw [if_pos h2]
        have h3 : dGet ing "name" "" ≠ "" ∧
            (dictGet? pd (pyLower (dGet ing "name" "")) = none ∨
             dictGet? pd (pyLower (dGet ing "name" "")) = some "") :=
          ⟨hname, (missing_cond_iff _).mp h2⟩
        rw [if_pos h3, ih (acc ++ [dGet ing "name" ""])]
        simp
      · rw [if_neg h2]
        have h3 : ¬(dGet ing "name" "" ≠ "" ∧
            (dictGet? pd (pyLower (dGet ing "name" "")) = none ∨
             dictGet? pd (pyLower (dGet ing "name" "")) = some "")) := by
          intro h
          exact h2 ((missing_cond_iff _).mpr h.2)
        rw [if_neg h3]
        exact ih acc

/-- C1: `compute_missing_ingredients` returns exactly the recipe ingredients
with a non-empty name whose lowercased name is absent from the case-insensitive
pantry name-to-quantity mapping or mapped to an empty quantity string, by their
original (non-lowercased) names, in recipe ingredient order, one output entry
per qualifying occurrence (no dedup).  `missingSpec` is that description read
off the spec; the loop of the source equals it. -/
theorem compute_missing_matches_spec (pantry : List (String × String)) (r : Recipe) :
    computeMissingIngredients pantry r = missingSpec pantry r := by
  unfold computeMissingIngredients missingSpec
  simpa using computeMissing_go (pantryDict pantry) r.ingredients []

/-! ## Claim C3 -/

theorem dictGet_insert {α : Type} (m : List (String × α)) (k key : String) (v : α) :
    dictGet? (dictInsert m k v) key = if k == key then some v else dictGet? m key := by
  induction m with
  | nil =>
    by_cases h : (k == key) = true <;>
      simp [dictInsert, dictGet?, List.find?_cons, h]
  | cons kv rest ih =>
    by_cases hk : (kv.1 == k) = true
    · simp only [dictInsert, hk, if_true]
      by_cases hkey : (k == key) = true
      · simp [dictGet?, List.find?_cons, hkey]
      · have hkv : (kv.1 == key) = false := by
          have h1 : kv.1 = k := by simpa using hk
          rw [h1]
          simpa using hkey
        simp [dictGet?, List.find?_cons, hkey, hkv]
    · simp only [dictInsert, hk, Bool.false_eq_true, if_false]
      by_cases hkq : (k == key) = true
      · have hkv : (kv.1 == key) = false := by
          have h1 : k = key := by simpa using hkq
          have h2 : ¬(kv.1 = k) := by simpa using hk
          rw [← h1] at *
          simpa using h2
        simp only [dictGet?, List.find?_cons, hkv]
        have := ih
        simp only [dictGet?] at this
        rw [this]
      · by_cases hkv : (kv.1 == key) = true
        · simp [dictGet?, List.find?_cons, hkv, hkq]
        · simp only [dictGet?, List.find?_cons, hkv]
          have := ih
          simp only [dictGet?] at this
          rw [this]

theorem t2r_get (rows : List Recipe) :
    ∀ (m : List (String × Recipe)) (t : String),
    dictGet? (rows.foldl (fun m r => dictInsert m r.title r) m) t =
      (rows.reverse.find? (fun r => r.title == t)).or (dictGet? m t) := by
  induction rows with
  | nil => intro m t; simp
  | cons r rs ih =>
    intro m t
    simp only [List.foldl_cons, List.reverse_cons]
    rw [ih, List.find?_append, Option.or_assoc]
    congr 1
    rw [dictGet_insert]
    by_cases hr : (r.title == t) = true
    · simp [List.find?_cons, hr]
    · simp [List.find?_cons, hr]

theorem find_filter_of_imp {α : Type} (p q : α → Bool)
    (himp : ∀ x, p x = true → q x = true) :
    ∀ l : List α, (l.filter q).find? p = l.find? p := by
  intro l
  induction l with
  | nil => simp
  | cons a t ih =>
    by_cases hq : q a = true
    · by_cases hp : p a = true <;>
        simp [List.filter_cons, hq, List.find?_cons, hp, ih]
    · have hp : p a = false := by
        cases hpa : p a
        · rfl
        · exact absurd (himp a hpa) (by simp [hq])
      simp [List.filter_cons, hq, List.find?_cons, hp, ih]

/-- C3: `find_recipes_by_titles` returns, for each input title in input-list
order, the stored recipe bearing that title (the most recently stored row if
several share a title, by the dict's last-write-wins), silently skipping
titles with no stored match — so for input `[B, A, C]` where only `A` and `C`
are stored it returns `[A, C]` regardless of storage order. -/
theorem find_recipes_by_titles_order (titles : List String) (db : List Recipe) :
    findRecipesByTitles titles db =
      titles.filterMap (fun t => db.reverse.find? (fun r => r.title == t)) ∧
    ∀ t, (db.reverse.find? (fun r => r.title == t) = none ↔
      ∀ r ∈ db, r.title ≠ t) := by
  constructor
  · by_cases ht : titles.isEmpty = true
    · have : titles = [] := List.isEmpty_iff.mp ht
      simp [findRecipesByTitles, this]
    · simp only [findRecipesByTitles, ht, Bool.false_eq_true, if_false]
      apply List.filterMap_congr
      intro t hmem
      rw [t2r_get]
      have hnil : (dictGet? ([] : List (String × Recipe)) t) = none := rfl
      rw [hnil, Option.or_none, ← List.filter_reverse]
      apply find_filter_of_imp
      intro r hrt
      have : r.title = t := by simpa using hrt
      rw [this]
      exact List.elem_iff.mpr hmem
  · intro t
    rw [List.find?_eq_none]
    constructor
    · intro h r hmem hrt
      exact h r (List.mem_reverse.mpr hmem) (by simpa using hrt)
    · intro h r hmem hrt
      exact h r (List.mem_reverse.mp hmem) (by simpa using hrt)

/-! ## Claim C4 -/

theorem clLe_trans : ∀ a b c : List Char,
    clLe a b = true → clLe b c = true → clLe a c = true := by
  intro a
  induction a with
  | nil => intro b c _ _; rfl
  | cons x xs ih =>
    intro b c hab hbc
    cases b with
    | nil => simp [clLe] at hab
    | cons y ys =>
      cases c with
      | nil => simp [clLe] at hbc
      | cons z zs =>
        simp only [clLe, Bool.or_eq_true, Bool.and_eq_true, decide_eq_true_eq]
          at hab hbc ⊢
        rcases hab with h1 | ⟨h1, h1r⟩ <;> rcases hbc with h2 | ⟨h2, h2r⟩
        · left; omega
        · left; omega
        · left; omega
        · right; exact ⟨by omega, ih ys zs h1r h2r⟩

theorem clLe_total : ∀ a b : List Char, (clLe a b || clLe b a) = true := by
  intro a
  induction a with
  | nil => intro b; simp [clLe]
  | cons x xs ih =>
    intro b
    cases b with
    | nil => simp [clLe]
    | cons y ys =>
      simp only [clLe, Bool.or_eq_true, Bool.and_eq_true, decide_eq_true_eq]
      rcases Nat.lt_trichotomy x.toNat y.toNat with h | h | h
      · left; left; exact h
      · have h2 := ih ys
        rw [Bool.or_eq_true] at h2
        rcases h2 with hxy | hyx
        · left; right; exact ⟨h, hxy⟩
        · right; right; exact ⟨h.symm, hyx⟩
      · right; left; exact h

theorem titleLe_trans : ∀ a b c : Recipe,
    titleLe a b = true → titleLe b c = true → titleLe a c = true := by
  intro a b c hab hbc
  exact clLe_trans _ _ _ hab hbc

theorem titleLe_total : ∀ a b : Recipe, (titleLe a b || titleLe b a) = true := by
  intro a b
  exact clLe_total _ _

theorem timeTitleLe_trans : ∀ a b c : Recipe,
    timeTitleLe a b = true → timeTitleLe b c = true → timeTitleLe a c = true := by
  intro a b c hab hbc
  simp only [timeTitleLe, Bool.or_eq_true, Bool.and_eq_true, decide_eq_true_eq]
    at hab hbc ⊢
  rcases hab with h1 | ⟨h1, h1r⟩ <;> rcases hbc with h2 | ⟨h2, h2r⟩
  · left; omega
  · left; omega
  · left; omega
  · right; exact ⟨by omega, clLe_trans _ _ _ h1r h2r⟩

theorem timeTitleLe_total : ∀ a b : Recipe,
    (timeTitleLe a b || timeTitleLe b a) = true := by
  intro a b
  simp only [timeTitleLe, Bool.or_eq_true, Bool.and_eq_true, decide_eq_true_eq]
  rcases Int.lt_trichotomy a.time_minutes b.time_minutes with h | h | h
  · left; left; exact h
  · have h2 := clLe_total a.title.data b.title.data
    rw [Bool.or_eq_true] at h2
    rcases h2 with hab | hba
    · left; right; exact ⟨h, hab⟩
    · right; right; exact ⟨h.symm, hba⟩
  · right; left; exact h

/-- C4: with all filters empty, `search_recipes` returns exactly the recipes of
`list_recipes` (a permutation of the same rows), ordered by `time_minutes`
ascending then title ascending, while `list_recipes` is ordered by title
alone. -/
theorem search_recipes_empty_filters (db : List Recipe) :
    (searchRecipes "" [] none "" db).Perm (listRecipes db) ∧
    (searchRecipes "" [] none "" db).Pairwise (fun a b =>
      a.time_minutes < b.time_minutes ∨
      (a.time_minutes = b.time_minutes ∧ clLe a.title.data b.title.data = true)) ∧
    (listRecipes db).Pairwise (fun a b => clLe a.title.data b.title.data = true) := by
  have hsearch : searchRecipes "" [] none "" db = db.mergeSort timeTitleLe := by
    unfold searchRecipes
    have hf : db.filter (fun r =>
        (("" : String) == "" || (likeContains r.title "" || likeContains r.description ""))
        && ([] : List String).all
            (fun c => likeContains (String.intercalate "," r.categories) c)
        && (match (none : Option Int) with
            | none => true
            | some m => decide (r.time_minutes ≤ m))
        && (("" : String) == "" || r.difficulty == "")) = db := by
      rw [List.filter_eq_self]
      intro r _
      simp
    rw [hf]
  refine ⟨?_, ?_, ?_⟩
  · rw [hsearch]
    exact (List.mergeSort_perm db timeTitleLe).trans
      (List.mergeSort_perm db titleLe).symm
  · rw [hsearch]
    refine (List.sorted_mergeSort timeTitleLe_trans timeTitleLe_total db).imp ?_
    intro a b h
    simpa [timeTitleLe, Bool.or_eq_true, Bool.and_eq_true, decide_eq_true_eq] using h
  · refine (List.sorted_mergeSort titleLe_trans titleLe_total db).imp ?_
    intro a b h
    exact h

/-! ## Claim C7 -/

theorem scoredLe_trans : ∀ a b c : Nat × Recipe,
    scoredLe a b = true → scoredLe b c = true → scoredLe a c = true := by
  intro a b c hab hbc
  simp only [scoredLe, Bool.or_eq_true, Bool.and_eq_true, decide_eq_true_eq]
    at hab hbc ⊢
  rcases hab with h1 | ⟨h1, h1r⟩ <;> rcases hbc with h2 | ⟨h2, h2r⟩
  · left; omega
  · left; omega
  · left; omega
  · right; exact ⟨by omega, clLe_trans _ _ _ h1r h2r⟩

theorem scoredLe_total : ∀ a b : Nat × Recipe,
    (scoredLe a b || scoredLe b a) = true := by
  intro a b
  simp only [scoredLe, Bool.or_eq_true, Bool.and_eq_true, decide_eq_true_eq]
  rcases Nat.lt_trichotomy a.1 b.1 with h | h | h
  · right; left; exact h
  · have h2 := clLe_total (pyLower a.2.title).data (pyLower b.2.title).data
    rw [Bool.or_eq_true] at h2
    rcases h2 with hab | hba
    · left; right; exact ⟨h, hab⟩
    · right; right; exact ⟨h.symm, hba⟩
  · left; left; exact h

theorem scored_go (terms : List String) (recipes : List Recipe) :
    ∀ acc, recipes.foldl (fun acc r =>
      if 0 < scoreOf terms r then acc ++ [(scoreOf terms r, r)] else acc) acc
    = acc ++ recipes.filterMap (fun r =>
      if 0 < scoreOf terms r then some (scoreOf terms r, r) else none) := by
  induction recipes with
  | nil => intro acc; simp
  | cons r rest ih =>
    intro acc
    simp only [List.foldl_cons, List.filterMap_cons]
    by_cases h : 0 < scoreOf terms r
    · rw [if_pos h, if_pos h, ih (acc ++ [(scoreOf terms r, r)])]
      simp
    · rw [if_neg h, if_neg h]
      exact ih acc

/-- C7: the local fallback returns at most 12 recipes, each drawn from the
known recipes with a positive score (the number of user terms contained
case-insensitively in some ingredient name), ordered pairwise by strictly
descending score with ties broken by ascending lowercased title — in
particular a recipe matching both of two query terms (score 2) is placed
before any recipe matching only one (score 1). -/
theorem local_fallback_ranking (ings : List String) (recipes : List Recipe) :
    (localFallbackMatches ings recipes).length ≤ 12 ∧
    (∀ r ∈ localFallbackMatches ings recipes,
      r ∈ recipes ∧ 0 < scoreOf (ings.map pyLower) r) ∧
    (localFallbackMatches ings recipes).Pairwise (fun r1 r2 =>
      scoreOf (ings.map pyLower) r2 < scoreOf (ings.map pyLower) r1 ∨
      (scoreOf (ings.map pyLower) r1 = scoreOf (ings.map pyLower) r2 ∧
        clLe (pyLower r1.title).data (pyLower r2.title).data = true)) := by
  have hunfold : localFallbackMatches ings recipes =
      ((((recipes.filterMap (fun r =>
        if 0 < scoreOf (ings.map pyLower) r then
          some (scoreOf (ings.map pyLower) r, r) else none)).mergeSort
            scoredLe).take 12).map (fun sr => sr.2)) := by
    simp only [localFallbackMatches]
    rw [scored_go (ings.map pyLower) recipes []]
    simp
  have hkey : ∀ x ∈ (((recipes.filterMap (fun r =>
      if 0 < scoreOf (ings.map pyLower) r then
        some (scoreOf (ings.map pyLower) r, r) else none)).mergeSort
          scoredLe).take 12),
      x.1 = scoreOf (ings.map pyLower) x.2 ∧ x.2 ∈ recipes ∧ 0 < x.1 := by
    intro x hx
    have hx2 := (List.take_sublist 12 _).subset hx
    have hx3 := (List.mergeSort_perm _ scoredLe).mem_iff.mp hx2
    obtain ⟨r0, hr0, hfx⟩ := List.mem_filterMap.mp hx3
    by_cases h : 0 < scoreOf (ings.map pyLower) r0
    · rw [if_pos h] at hfx
      have := hfx
      cases this
      exact ⟨rfl, hr0, h⟩
    · rw [if_neg h] at hfx
      exact absurd hfx (by simp)
  refine ⟨?_, ?_, ?_⟩
  · rw [hunfold, List.length_map]
    have := List.length_take 12 ((recipes.filterMap (fun r =>
      if 0 < scoreOf (ings.map pyLower) r then
        some (scoreOf (ings.map pyLower) r, r) else none)).mergeSort scoredLe)
    omega
  · rw [hunfold]
    intro r hr
    obtain ⟨x, hx, hxr⟩ := List.mem_map.mp hr
    obtain ⟨hx1, hx2, hx3⟩ := hkey x hx
    rw [← hxr]
    exact ⟨hx2, by rw [← hx1]; exact hx3⟩
  · rw [hunfold]
    apply List.pairwise_map.mpr
    have hp := List.sorted_mergeSort scoredLe_trans scoredLe_total
      (recipes.filterMap (fun r =>
        if 0 < scoreOf (ings.map pyLower) r then
          some (scoreOf (ings.map pyLower) r, r) else none))
    have hp2 := List.Pairwise.sublist (List.take_sublist 12 _) hp
    refine hp2.imp_of_mem ?_
    intro a b ha hb hab
    obtain ⟨ha1, _, _⟩ := hkey a ha
    obtain ⟨hb1, _, _⟩ := hkey b hb
    simp only [scoredLe, Bool.or_eq_true, Bool.and_eq_true, decide_eq_true_eq]
      at hab
    rcases hab with h | ⟨h, hr⟩
    · left; omega
    · right; exact ⟨by omega, hr⟩

/-! ## Claim C5 -/

theorem fenceSub_nil : ∀ (fuel : Nat) (b : Bool), fenceSub fuel b [] = [] := by
  intro fuel b
  cases fuel <;> rfl

theorem parseVal_backtick : ∀ (fuel : Nat) (l : List Char),
    parseVal fuel ('\x60' :: l) = none := by
  intro fuel l
  cases fuel with
  | zero => rfl
  | succ f => rfl

theorem parseJson_backtick (s : String) (l : List Char) (h : s.data = '\x60' :: l) :
    parseJson s = none := by
  unfold parseJson
  rw [h, parseVal_backtick]

theorem pyStripL_sandwich (a b : Char) (mid : List Char)
    (ha : isPyWs a = false) (hb : isPyWs b = false) :
    pyStripL (a :: (mid ++ [b])) = a :: (mid ++ [b]) := by
  unfold pyStripL
  rw [List.dropWhile_cons, ha]
  simp only [Bool.false_eq_true, if_false]
  have hrev : (a :: (mid ++ [b])).reverse = b :: (mid.reverse ++ [a]) := by
    simp
  rw [hrev, List.dropWhile_cons, hb]
  simp only [Bool.false_eq_true, if_false]
  rw [← hrev, List.reverse_reverse]

theorem pyStripL_append_newline (Jd : List Char) (a : Char) (t : List Char)
    (hat : Jd = a :: t) (ha : isPyWs a = false) (hT : Trimmed Jd) :
    pyStripL (Jd ++ ['\n']) = Jd := by
  unfold pyStripL
  have h1 : (Jd ++ ['\n']).dropWhile isPyWs = Jd ++ ['\n'] := by
    rw [hat, List.cons_append, List.dropWhile_cons, ha]
    simp
  rw [h1]
  have h2 : (Jd ++ ['\n']).reverse = '\n' :: Jd.reverse := by simp
  rw [h2, List.dropWhile_cons]
  have hnl : isPyWs '\n' = true := rfl
  rw [hnl]
  simp only [if_true]
  rw [hT.2, List.reverse_reverse]

theorem fenceSub_tail : ∀ (fuel : Nat) (b : Bool), 5 ≤ fuel →
    fenceSub fuel b ['\n', '\x60', '\x60', '\x60'] = ['\n'] := by
  intro fuel b h
  obtain ⟨f2, rfl⟩ : ∃ f2, fuel = f2 + 2 := ⟨fuel - 2, by omega⟩
  show fenceSub (f2 + 1 + 1) b _ = _
  simp [fenceSub, fenceAfterTag, isJsonTag, fenceSub_nil]

theorem fenceSub_copy (l suffix r : List Char) (hno : ∀ c ∈ l, c ≠ '\x60')
    (hsuf : ∀ (b : Bool) (fuel : Nat), suffix.length + 1 ≤ fuel →
      fenceSub fuel b suffix = r) :
    ∀ (b : Bool) (fuel : Nat), l.length + suffix.length + 1 ≤ fuel →
    fenceSub fuel b (l ++ suffix) = l ++ r := by
  induction l with
  | nil =>
    intro b fuel h
    simpa using hsuf b fuel (by simpa using h)
  | cons c t ih =>
    intro b fuel h
    obtain ⟨f, rfl⟩ : ∃ f, fuel = f + 1 := ⟨fuel - 1, by omega⟩
    rw [List.cons_append, fenceSub]
    have hc : ¬(c = '\x60' ∧ (t ++ suffix).take 2 = ['\x60', '\x60']) := by
      intro hx
      exact (hno c (by simp)) hx.1
    rw [if_neg hc]
    rw [ih (fun c2 hc2 => hno c2 (by simp [hc2])) (c == '\n') f
      (by simp only [List.length_cons] at h; omega)]
    simp

theorem fenceSub_eval (Jd : List Char) (a : Char) (t : List Char)
    (hat : Jd = a :: t) (ha : isPyWs a = false) (hno : ∀ c ∈ Jd, c ≠ '\x60') :
    ∀ fuel : Nat, Jd.length + 13 ≤ fuel →
    fenceSub fuel true
      (['\x60', '\x60', '\x60', 'j', 's', 'o', 'n', '\n'] ++
        (Jd ++ ['\n', '\x60', '\x60', '\x60'])) = Jd ++ ['\n'] := by
  intro fuel h
  obtain ⟨f, rfl⟩ : ∃ f, fuel = f + 1 := ⟨fuel - 1, by omega⟩
  rw [show (['\x60', '\x60', '\x60', 'j', 's', 'o', 'n', '\n'] ++
      (Jd ++ ['\n', '\x60', '\x60', '\x60'])) =
    '\x60' :: (['\x60', '\x60', 'j', 's', 'o', 'n', '\n'] ++
      (Jd ++ ['\n', '\x60', '\x60', '\x60'])) from rfl]
  rw [fenceSub]
  rw [if_pos ⟨rfl, rfl⟩]
  rw [if_pos rfl]
  have hd2 : (['\x60', '\x60', 'j', 's', 'o', 'n', '\n'] ++
      (Jd ++ ['\n', '\x60', '\x60', '\x60'])).drop 2 =
      'j' :: 's' :: 'o' :: 'n' :: '\n' :: (Jd ++ ['\n', '\x60', '\x60', '\x60']) := rfl
  have htagv : isJsonTag ('j' :: 's' :: 'o' :: 'n' :: '\n' ::
      (Jd ++ ['\n', '\x60', '\x60', '\x60'])) = true := rfl
  have htag : fenceAfterTag ('j' :: 's' :: 'o' :: 'n' :: '\n' ::
      (Jd ++ ['\n', '\x60', '\x60', '\x60'])) =
      '\n' :: (Jd ++ ['\n', '\x60', '\x60', '\x60']) := by
    rw [fenceAfterTag, if_pos htagv]
    rfl
  have htw : List.takeWhile isPyWs ('\n' :: (Jd ++ ['\n', '\x60', '\x60', '\x60'])) =
      ['\n'] := by
    rw [List.takeWhile_cons]
    simp only [show isPyWs '\n' = true from rfl, if_true]
    rw [hat, List.cons_append, List.takeWhile_cons, ha]
    simp
  have hdw : List.dropWhile isPyWs ('\n' :: (Jd ++ ['\n', '\x60', '\x60', '\x60'])) =
      Jd ++ ['\n', '\x60', '\x60', '\x60'] := by
    rw [List.dropWhile_cons]
    simp only [show isPyWs '\n' = true from rfl, if_true]
    rw [hat, List.cons_append, List.dropWhile_cons, ha]
    simp
  rw [hd2, htag, htw, hdw]
  have hflag : ((['\n'] : List Char).getLast? == some '\n') = true := rfl
  rw [hflag]
  exact fenceSub_copy Jd ['\n', '\x60', '\x60', '\x60'] ['\n'] hno
    (fun b2 fuel2 h2 => fenceSub_tail fuel2 b2 (by simpa using h2)) true f
    (by simp only [List.length_cons, List.length_nil] at h ⊢; omega)

theorem fenceCleaned_fenced (J : String) (a : Char) (t : List Char)
    (hat : J.data = a :: t) (ha : isPyWs a = false) (hT : Trimmed J.data)
    (hno : ∀ c ∈ J.data, c ≠ '\x60') :
    fenceCleaned ("```json\n" ++ J ++ "\n```") = J := by
  unfold fenceCleaned
  have hdata : ("```json\n" ++ J ++ "\n```").data =
      ['\x60', '\x60', '\x60', 'j', 's', 'o', 'n', '\n'] ++
        (J.data ++ ['\n', '\x60', '\x60', '\x60']) := by
    show ("```json\n".data ++ J.data) ++ "\n```".data = _
    simp [List.append_assoc]
  rw [hdata]
  rw [fenceSub_eval J.data a t hat ha hno _
    (by simp only [List.length_append, List.length_cons, List.length_nil]; omega)]
  unfold pyStrip
  rw [show (String.mk (J.data ++ ['\n'])).data = J.data ++ ['\n'] from rfl]
  rw [pyStripL_append_newline J.data a t hat ha hT]

/-- C5: wrapping a parseable JSON object text in a Markdown code fence does not
change what the parse ladder recovers: the direct parse of the fenced text
fails, the fence-stripping stage recovers exactly the original text, and both
the fenced and the unfenced response yield the same parsed object (the
backtick-free hypothesis pins down the fence/payload interaction; a JSON text
cannot place backticks at a line boundary anyway, since raw newlines are
illegal inside JSON strings). -/
theorem json_ladder_fence_invariant (J : String) (v : Json)
    (h1 : parseJson J = some v) (h2 : pyStrip J = J)
    (h3 : ∀ c ∈ J.data, c ≠ '\x60') (h4 : J ≠ "") :
    parseLadder ("```json\n" ++ J ++ "\n```") = some v ∧ parseLadder J = some v := by
  have hdataJ : pyStripL J.data = J.data := by
    have := congrArg String.data h2
    simpa [pyStrip] using this
  have hT := trimmed_of_pyStripL_eq hdataJ
  have hJne : J.data ≠ [] := by
    intro h
    apply h4
    cases J with
    | mk d => exact congrArg String.mk h
  obtain ⟨a, t, hat⟩ : ∃ a t, J.data = a :: t := by
    cases hJd : J.data with
    | nil => exact absurd hJd hJne
    | cons a t => exact ⟨a, t, rfl⟩
  have ha : isPyWs a = false :=
    dropWhile_head_false isPyWs J.data a t (hT.1.trans hat)
  have hladJ : parseLadder J = some v := by
    unfold parseLadder
    rw [h2, h1]
  refine ⟨?_, hladJ⟩
  have hstrip : pyStrip ("```json\n" ++ J ++ "\n```") = "```json\n" ++ J ++ "\n```" := by
    unfold pyStrip
    have hdata : ("```json\n" ++ J ++ "\n```").data =
        '\x60' :: ((['\x60', '\x60', 'j', 's', 'o', 'n', '\n'] ++ J.data ++
          ['\n', '\x60', '\x60']) ++ ['\x60']) := by
      show ("```json\n".data ++ J.data) ++ "\n```".data = _
      simp [List.append_assoc]
    rw [hdata, pyStripL_sandwich '\x60' '\x60' _ rfl rfl, ← hdata]
  have hpf : parseJson ("```json\n" ++ J ++ "\n```") = none :=
    parseJson_backtick _ _ rfl
  have hclean := fenceCleaned_fenced J a t hat ha hT h3
  simp only [parseLadder, hstrip, hpf, hclean, h1]

/-- Witness for C5 at the concrete object text `\x7b"ok": 1\x7d`. -/
theorem json_ladder_fence_invariant_witness :
    (parseJson "\x7b\"ok\": 1\x7d" =
      some (Json.obj (JsonMems.cons "ok" (Json.num 1) JsonMems.nil)) ∧
     pyStrip "\x7b\"ok\": 1\x7d" = "\x7b\"ok\": 1\x7d" ∧
     (∀ c ∈ ("\x7b\"ok\": 1\x7d" : String).data, c ≠ '\x60') ∧
     ("\x7b\"ok\": 1\x7d" : String) ≠ "") ∧
    parseLadder ("```json\n" ++ "\x7b\"ok\": 1\x7d" ++ "\n```") =
      some (Json.obj (JsonMems.cons "ok" (Json.num 1) JsonMems.nil)) ∧
    parseLadder "\x7b\"ok\": 1\x7d" =
      some (Json.obj (JsonMems.cons "ok" (Json.num 1) JsonMems.nil)) :=
  ⟨⟨rfl, rfl, by decide, by decide⟩,
    json_ladder_fence_invariant _ _ rfl rfl (by decide) (by decide)⟩

/-! ## Claim C6 -/

theorem except_bind_ok {α β : Type} (a : α) (f : α → Except Unit β) :
    (Except.ok a >>= f) = f a := rfl

theorem except_bind_error {α β : Type} (e : Unit) (f : α → Except Unit β) :
    ((Except.error e : Except Unit α) >>= f) = Except.error e := rfl

theorem pyTake_length_le (s : String) (n : Nat) : (pyTake s n).length ≤ n := by
  have h : (pyTake s n).length = (s.data.take n).length := rfl
  rw [h, List.length_take]
  exact min_le_left _ _

theorem normIngs_bounds (L : List Json) :
    ∀ out, normIngs L = Except.ok out →
    ∀ g ∈ out, g.name.length ≤ 120 ∧ g.quantity.length ≤ 120 := by
  induction L with
  | nil =>
    intro out h g hg
    have h2 : ([] : List NIng) = out := by
      have h3 : Except.ok ([] : List NIng) = Except.ok out := h
      injection h3
    rw [← h2] at hg
    simp at hg
  | cons i rest ih =>
    intro out h g hg
    cases h1 : pyGetD i "name" (Json.str "") with
    | error e =>
      simp only [normIngs, h1, except_bind_error] at h
      exact absurd h (by simp)
    | ok nameV =>
      by_cases hblank : pyStrip (pyStrJ nameV) = ""
      · rw [show normIngs (i :: rest) = normIngs rest by
          simp [normIngs, h1, except_bind_ok, hblank]] at h
        exact ih out h g hg
      · cases h2 : pyGetD i "quantity" (Json.str "") with
        | error e =>
          simp only [normIngs, h1, except_bind_ok, h2] at h
          rw [if_neg (by simpa using hblank)] at h
          exact absurd h (by simp [except_bind_error])
        | ok qV =>
          cases h3 : normIngs rest with
          | error e =>
            simp only [normIngs, h1, except_bind_ok, h2, h3] at h
            rw [if_neg (by simpa using hblank)] at h
            exact absurd h (by simp [except_bind_error])
          | ok tail =>
            have hout : (⟨pyTake (pyStrJ nameV) 120, pyTake (pyStrJ qV) 120⟩ : NIng)
                :: tail = out := by
              have h4 := h
              simp only [normIngs, h1, except_bind_ok, h2, h3] at h4
              rw [if_neg (by simpa using hblank)] at h4
              injection h4
            rw [← hout] at hg
            rcases List.mem_cons.mp hg with hgh | hgt
            · rw [hgh]
              exact ⟨pyTake_length_le _ _, pyTake_length_le _ _⟩
            · exact ih tail h3 g hgt

theorem except_ok_of_bind {α β : Type} {x : Except Unit α} {f : α → Except Unit β}
    {b : β} (h : (x >>= f) = Except.ok b) :
    ∃ a, x = Except.ok a ∧ f a = Except.ok b := by
  cases x with
  | error e => exact absurd h (by simp [except_bind_error])
  | ok a => exact ⟨a, rfl, by rw [except_bind_ok] at h; exact h⟩

theorem normalizeIdea_bounds (j : Json) (idea : NIdea)
    (h : normalizeIdea j = Except.ok idea) :
    idea.title.length ≤ 120 ∧ idea.description.length ≤ 2000 ∧
    idea.difficulty.length ≤ 20 ∧ idea.steps.length ≤ 30 ∧
    idea.categories.length ≤ 10 ∧
    ∀ g ∈ idea.ingredients, g.name.length ≤ 120 ∧ g.quantity.length ≤ 120 := by
  unfold normalizeIdea at h
  obtain ⟨titleV, h1, h⟩ := except_ok_of_bind h
  obtain ⟨descV, h2, h⟩ := except_ok_of_bind h
  obtain ⟨ingsV, h3, h⟩ := except_ok_of_bind h
  obtain ⟨ingsL, h4, h⟩ := except_ok_of_bind h
  obtain ⟨ings, h5, h⟩ := except_ok_of_bind h
  obtain ⟨stepsV, h6, h⟩ := except_ok_of_bind h
  obtain ⟨stepsL, h7, h⟩ := except_ok_of_bind h
  obtain ⟨tmV, h8, h⟩ := except_ok_of_bind h
  obtain ⟨tm, h9, h⟩ := except_ok_of_bind h
  obtain ⟨diffV, h10, h⟩ := except_ok_of_bind h
  obtain ⟨catsV, h11, h⟩ := except_ok_of_bind h
  obtain ⟨catsL, h12, h⟩ := except_ok_of_bind h
  have hidea : NIdea.mk (pyTake (pyStrJ titleV) 120) (pyTake (pyStrJ descV) 2000)
      ings ((stepsL.map pyStrJ).take 30) tm (pyTake (pyStrJ diffV) 20)
      ((catsL.map pyStrJ).take 10) = idea := by injection h
  rw [← hidea]
  refine ⟨pyTake_length_le _ _, pyTake_length_le _ _, pyTake_length_le _ _, ?_, ?_, ?_⟩
  · show ((stepsL.map pyStrJ).take 30).length ≤ 30
    rw [List.length_take]
    exact min_le_left _ _
  · show ((catsL.map pyStrJ).take 10).length ≤ 10
    rw [List.length_take]
    exact min_le_left _ _
  · intro g hg
    exact normIngs_bounds ingsL ings h5 g hg

theorem pySliceJ_length_le (j : Json) (n : Nat) (l : List Json)
    (h : pySliceJ j n = Except.ok l) : l.length ≤ n := by
  cases j with
  | arr xs =>
    have h2 : ((jsonListToList xs).take n) = l := by
      have h3 : Except.ok ((jsonListToList xs).take n) = Except.ok l := h
      injection h3
    rw [← h2, List.length_take]
    exact min_le_left _ _
  | str s =>
    have h2 : ((s.data.take n).map (fun c => Json.str (String.mk [c]))) = l := by
      have h3 : Except.ok ((s.data.take n).map (fun c => Json.str (String.mk [c])))
          = Except.ok l := h
      injection h3
    rw [← h2, List.length_map, List.length_take]
    exact min_le_left _ _
  | null => exact absurd h (by simp [pySliceJ])
  | bool b => exact absurd h (by simp [pySliceJ])
  | num m => exact absurd h (by simp [pySliceJ])
  | obj ms => exact absurd h (by simp [pySliceJ])

theorem suggest_normalization_caps (data : Json) (out : SuggestResult)
    (h : suggestNormalize data = Except.ok out) :
    out.match_titles.length ≤ 20 ∧
    out.substitutions.length ≤ 20 ∧
    out.ideas.length ≤ 10 ∧
    (∀ i ∈ out.ideas, i.title.length ≤ 120 ∧ i.description.length ≤ 2000 ∧
      i.difficulty.length ≤ 20 ∧ i.steps.length ≤ 30 ∧ i.categories.length ≤ 10 ∧
      ∀ g ∈ i.ingredients, g.name.length ≤ 120 ∧ g.quantity.length ≤ 120) ∧
    (∀ rawIdeas sliced,
      pyGetD data "ideas" (Json.arr JsonList.nil) = Except.ok rawIdeas →
      pySliceJ rawIdeas 10 = Except.ok sliced →
      out.ideas = sliced.filterMap (fun j => (normalizeIdea j).toOption)) ∧
    (∀ i L, (∃ nameV, pyGetD i "name" (Json.str "") = Except.ok nameV ∧
        pyStrip (pyStrJ nameV) = "") → normIngs (i :: L) = normIngs L) := by
  unfold suggestNormalize at h
  obtain ⟨mtV, h1, h⟩ := except_ok_of_bind h
  obtain ⟨mtL, h2, h⟩ := except_ok_of_bind h
  obtain ⟨ideasV, h3, h⟩ := except_ok_of_bind h
  obtain ⟨sliced, h4, h⟩ := except_ok_of_bind h
  obtain ⟨sbV, h5, h⟩ := except_ok_of_bind h
  obtain ⟨sbL, h6, h⟩ := except_ok_of_bind h
  have hout : SuggestResult.mk ((mtL.map pyStrJ).take 20)
      (sliced.filterMap (fun j => (normalizeIdea j).toOption))
      ((sbL.map pyStrJ).take 20) = out := by injection h
  rw [← hout]
  refine ⟨?_, ?_, ?_, ?_, ?_, ?_⟩
  · show ((mtL.map pyStrJ).take 20).length ≤ 20
    rw [List.length_take]
    exact min_le_left _ _
  · show ((sbL.map pyStrJ).take 20).length ≤ 20
    rw [List.length_take]
    exact min_le_left _ _
  · show (sliced.filterMap (fun j => (normalizeIdea j).toOption)).length ≤ 10
    calc (sliced.filterMap (fun j => (normalizeIdea j).toOption)).length
        ≤ sliced.length := List.length_filterMap_le _ _
      _ ≤ 10 := pySliceJ_length_le ideasV 10 sliced h4
  · intro i hi
    obtain ⟨j0, hj0, hsome⟩ := List.mem_filterMap.mp hi
    have hok : normalizeIdea j0 = Except.ok i := by
      cases hni : normalizeIdea j0 with
      | error e =>
        rw [hni] at hsome
        exact absurd hsome (by simp [Except.toOption])
      | ok i2 =>
        rw [hni] at hsome
        simp only [Except.toOption, Option.some.injEq] at hsome
        rw [hsome]
    exact normalizeIdea_bounds j0 i hok
  · intro rawIdeas sliced2 hraw hslice
    have he1 : ideasV = rawIdeas := by
      rw [h3] at hraw
      injection hraw
    rw [← he1] at hslice
    have he2 : sliced = sliced2 := by
      rw [h4] at hslice
      injection hslice
    rw [← he2]
  · intro i L hex
    obtain ⟨nameV, hget, hblank⟩ := hex
    simp [normIngs, hget, except_bind_ok, hblank]

/-- Witness for C6: a response with 11 `ideas` entries (nine of which raise
during reconstruction, and the eleventh is beyond the first ten), a blank-named
ingredient that is dropped, and a numeric quantity that is stringified. -/
theorem suggest_normalization_caps_witness :
    suggestNormalize suggestSampleData = Except.ok suggestSampleOut ∧
    (suggestSampleOut.match_titles.length ≤ 20 ∧
    suggestSampleOut.substitutions.length ≤ 20 ∧
    suggestSampleOut.ideas.length ≤ 10 ∧
    (∀ i ∈ suggestSampleOut.ideas, i.title.length ≤ 120 ∧
      i.description.length ≤ 2000 ∧ i.difficulty.length ≤ 20 ∧
      i.steps.length ≤ 30 ∧ i.categories.length ≤ 10 ∧
      ∀ g ∈ i.ingredients, g.name.length ≤ 120 ∧ g.quantity.length ≤ 120) ∧
    (∀ rawIdeas sliced,
      pyGetD suggestSampleData "ideas" (Json.arr JsonList.nil) = Except.ok rawIdeas →
      pySliceJ rawIdeas 10 = Except.ok sliced →
      suggestSampleOut.ideas =
        sliced.filterMap (fun j => (normalizeIdea j).toOption)) ∧
    (∀ i L, (∃ nameV, pyGetD i "name" (Json.str "") = Except.ok nameV ∧
        pyStrip (pyStrJ nameV) = "") → normIngs (i :: L) = normIngs L)) :=
  ⟨rfl, suggest_normalization_caps suggestSampleData suggestSampleOut rfl⟩

/-! ## Claim C10 -/

/-- C10 counterexample: `from_row` on a non-None row whose embedded
`ingredients_json` is malformed for its purpose (the valid JSON text `"5"`)
raises instead of degrading: only `json.loads` is guarded by `try/except`, the
pydantic type validation is not. -/
theorem from_row_raises_counterexample :
    fromRow badIngredientsRow = Except.error () := rfl

theorem loadEmbedded_parse_failure (s : String) (h : parseJson s = none) :
    loadEmbedded (SqlVal.text s) = Json.arr JsonList.nil := by
  unfold loadEmbedded
  by_cases ht : sqlTruthy (SqlVal.text s) = true
  · simp [ht, h]
  · simp [ht]

/-- C10 amended: for a non-None row whose `ingredients_json` and `steps_json`
both FAIL TO PARSE as JSON, `from_row` does not raise: the two fields degrade
to `[]` and every remaining field is still populated from the row (the claim's
"never raises on malformed embedded data" does not hold when the embedded JSON
parses to a value of the wrong shape, as `from_row_raises_counterexample`
shows; the `try/except` blocks guard only `json.loads`). -/
theorem from_row_parse_failure_degrades (row : RecipeRow) (si ss : String)
    (n t : Int)
    (hi : row.ingredients_json = SqlVal.text si) (hpi : parseJson si = none)
    (hs : row.steps_json = SqlVal.text ss) (hps : parseJson ss = none)
    (hid : row.id = SqlVal.int n) (ht : row.time_minutes = SqlVal.int t) :
    fromRow row = Except.ok (Recipe.mk (some n) (sqlStr row.title)
      (sqlStr (if sqlTruthy row.description then row.description
        else SqlVal.text ""))
      [] [] t
      (sqlStr (if sqlTruthy row.difficulty then row.difficulty
        else SqlVal.text ""))
      (sqlStr (if sqlTruthy row.image_path then row.image_path
        else SqlVal.text ""))
      (rowCategories row.categories)) := by
  unfold fromRow
  rw [hi, hs, hid, ht, loadEmbedded_parse_failure si hpi,
    loadEmbedded_parse_failure ss hps]
  by_cases hz : t = 0
  · subst hz
    rfl
  · have htr : sqlTruthy (SqlVal.int t) = true := by
      simp [sqlTruthy, hz]
    rw [if_pos htr]
    rfl

/-- Witness for the amended C10 theorem at a concrete row. -/
theorem from_row_parse_failure_degrades_witness :
    (degradeRow.ingredients_json = SqlVal.text "oops" ∧ parseJson "oops" = none ∧
     degradeRow.steps_json = SqlVal.text "x" ∧ parseJson "x" = none ∧
     degradeRow.id = SqlVal.int 1 ∧ degradeRow.time_minutes = SqlVal.int 7) ∧
    fromRow degradeRow = Except.ok (Recipe.mk (some 1) (sqlStr degradeRow.title)
      (sqlStr (if sqlTruthy degradeRow.description then degradeRow.description
        else SqlVal.text ""))
      [] [] 7
      (sqlStr (if sqlTruthy degradeRow.difficulty then degradeRow.difficulty
        else SqlVal.text ""))
      (sqlStr (if sqlTruthy degradeRow.image_path then degradeRow.image_path
        else SqlVal.text ""))
      (rowCategories degradeRow.categories)) :=
  ⟨⟨rfl, rfl, rfl, rfl, rfl, rfl⟩,
    from_row_parse_failure_degrades degradeRow "oops" "x" 1 7
      rfl rfl rfl rfl rfl rfl⟩
